import Mathlib

/-!
Verification of `src/version.py`, a waf tool that copies a text file while
conditionally including lines that carry inline version-compatibility
markers of the form `@program OP version@`.

The embedding below mirrors the Python source:

* the marker regular expression built by the metaclass `compose_match`
  (`@(?P<program>\w+)(?P<operator>…)(?P<version>\d[\.\d]*)@\s*`) is modelled
  by `searchMarker` (leftmost match with first-alternative-that-continues
  semantics for the operator alternation) and `subAll` (the semantics of
  `re.sub` with an empty replacement, i.e. removal of every
  non-overlapping match);
* Python values that can flow into a comparison are modelled by `PyVal`:
  a tuple of numbers, or the empty list that waf's `ConfigSet.__getitem__`
  returns for an absent key.  Comparing a list with a tuple raises
  `TypeError` in Python except under `==` (False) and `!=` (True); this is
  captured by `opApply`;
* the operator dictionaries of the task classes `ver_base`, `subver` and
  `ver` are the association lists `ver_base.operators`, `subver.operators`
  and `ver.operators`; `fuzzy` is the truncate-then-compare wrapper;
* `get_version` is the resolution chain (versions dict under the exact
  name, then under the uppercase name, then the environment-like store
  under `UPPER_VERSION`); a `Cfg` with `versions = none` models a task
  generator without a `versions` attribute (the `AttributeError` branch);
* `compatible` is the line filter (it also returns the referenced-programs
  set, written to `raw_deps` by the source), `run` joins the kept lines
  with a newline, and `sigFeed` is the sequence of strings `sig_vars`
  feeds to the task's hash object.
-/

/-- Errors a processing run can surface.  `typeError` and `valueError`
model the Python exceptions of those names, `keyError` a failing
dictionary lookup, and `wafError` the explicit
`WafError('version missing for program …')` raised in `compatible`. -/
inductive PyErr where
  | typeError
  | valueError
  | keyError
  | wafError (msg : String)
deriving Repr, DecidableEq

instance {ε α : Type} [DecidableEq ε] [DecidableEq α] : DecidableEq (Except ε α) := fun a b =>
  match a, b with
  | .error e, .error f =>
    match decEq e f with
    | isTrue h => isTrue (by rw [h])
    | isFalse h => isFalse (fun hh => h (Except.error.inj hh))
  | .ok x, .ok y =>
    match decEq x y with
    | isTrue h => isTrue (by rw [h])
    | isFalse h => isFalse (fun hh => h (Except.ok.inj hh))
  | .error _, .ok _ => isFalse (fun hh => Except.noConfusion hh)
  | .ok _, .error _ => isFalse (fun hh => Except.noConfusion hh)

/-! ### Character classes of the marker regular expression (ASCII model) -/

/-- `\w` of the pattern: letters, digits and the underscore. -/
def isWordChar (c : Char) : Bool := c.isAlphanum || c = '_'

/-- `\s` of the pattern: ASCII whitespace. -/
def isSpaceChar (c : Char) : Bool :=
  c = ' ' || c = '\t' || c = '\n' || c = '\x0d' || c = '\x0b' || c = '\x0c'

/-- The character class `[\.\d]` of the version field: a digit or a dot. -/
def isDotDigit (c : Char) : Bool := c.isDigit || c = '.'

/-- Whether the first list is a prefix of the second (used for matching a
literal operator alternative at the current position). -/
def leadsWith : List Char → List Char → Bool
  | [], _ => true
  | _ :: _, [] => false
  | a :: as, b :: bs => if a = b then leadsWith as bs else false

/-! ### The marker grammar -/

/-- The three capture groups of the marker regular expression. -/
structure Marker where
  program : String
  operator : String
  version : String
deriving Repr, DecidableEq

/-- A match of the whole pattern: its start offset in the line and the
total number of characters consumed (including the trailing `\s*`). -/
structure MarkerMatch where
  start : Nat
  marker : Marker
  len : Nat
deriving Repr, DecidableEq

/-- Match `(?P<version>\d[\.\d]*)@\s*` at the head of `s`: the version run
is greedy and must be followed directly by the closing `@`; any
backtracking into the run would place a digit or dot where the `@` is
required, so the maximal run is the only candidate. -/
def matchVersion (s : List Char) : Option (String × Nat) :=
  match s with
  | [] => none
  | c :: _ =>
    if c.isDigit then
      let run := s.takeWhile isDotDigit
      match s.drop run.length with
      | [] => none
      | d :: rest =>
        if d = '@' then
          some (⟨run⟩, run.length + 1 + (rest.takeWhile isSpaceChar).length)
        else none
    else none

/-- Try the operator alternation at the head of `s` in dictionary-key
order; as in the regular expression engine, an alternative only wins if
the rest of the pattern also matches after it. Returns the operator, the
version text and the number of characters consumed from `s`. -/
def tryOps (ops : List String) (s : List Char) : Option (String × String × Nat) :=
  match ops with
  | [] => none
  | op :: more =>
    if leadsWith op.data s then
      match matchVersion (s.drop op.length) with
      | some (v, n) => some (op, v, op.length + n)
      | none => tryOps more s
    else tryOps more s

/-- Match the whole marker pattern anchored at the head of `s`.  The
program group `\w+` is greedy, and since no operator starts with a word
character, only its maximal run can be followed by an operator. -/
def matchHere (ops : List String) (s : List Char) : Option (Marker × Nat) :=
  match s with
  | [] => none
  | c :: rest =>
    if c = '@' then
      let prog := rest.takeWhile isWordChar
      if prog = [] then none
      else
        match tryOps ops (rest.drop prog.length) with
        | some (op, v, n) => some (⟨⟨prog⟩, op, v⟩, 1 + prog.length + n)
        | none => none
    else none

/-- `re.search`: the match whose span begins earliest in the line. -/
def searchMarker (ops : List String) : List Char → Option MarkerMatch
  | [] => none
  | c :: rest =>
    match matchHere ops (c :: rest) with
    | some (m, n) => some ⟨0, m, n⟩
    | none => (searchMarker ops rest).map fun mm => ⟨mm.start + 1, mm.marker, mm.len⟩

/-- Fuel-driven worker for `subAll`; every match consumes at least one
character, so fuel equal to the length of the list suffices. -/
def subAllF (ops : List String) : Nat → List Char → List Char
  | 0, s => s
  | fuel + 1, s =>
    match searchMarker ops s with
    | none => s
    | some mm => s.take mm.start ++ subAllF ops fuel (s.drop (mm.start + mm.len))

/-- `marker.sub('', line)`: remove every non-overlapping match of the
marker pattern, scanning left to right. -/
def subAll (ops : List String) (s : List Char) : List Char :=
  subAllF ops s.length s

/-! ### Python values and comparisons -/

/-- A value that can appear on the left of a marker comparison: a version
tuple, or the empty list that waf's `ConfigSet.__getitem__` yields for an
absent environment key. -/
inductive PyVal where
  | tup (xs : List Nat)
  | emptyList
deriving Repr, DecidableEq

/-- The six base comparison functions from the `operator` module. -/
inductive BaseOp where
  | lt | le | gt | ge | eq | ne
deriving Repr, DecidableEq

/-- Python's lexicographic ordering of integer sequences: with an equal
common prefix the shorter sequence is smaller. -/
def pyLt : List Nat → List Nat → Bool
  | [], [] => false
  | [], _ :: _ => true
  | _ :: _, [] => false
  | a :: as, b :: bs => if a < b then true else if b < a then false else pyLt as bs

/-- A base operator applied to two integer sequences of the same Python
type (both tuples, or both lists). -/
def pyOpB : BaseOp → List Nat → List Nat → Bool
  | .lt, a, b => pyLt a b
  | .le, a, b => !pyLt b a
  | .gt, a, b => pyLt b a
  | .ge, a, b => !pyLt a b
  | .eq, a, b => a == b
  | .ne, a, b => !(a == b)

/-- A base operator applied to two `PyVal`s.  A list and a tuple are never
equal (`==` is `False`, `!=` is `True`) and are unorderable (`<`, `<=`,
`>`, `>=` raise `TypeError`). -/
def opApply (op : BaseOp) : PyVal → PyVal → Except PyErr Bool
  | .tup xs, .tup ys => .ok (pyOpB op xs ys)
  | .emptyList, .emptyList => .ok (pyOpB op [] [])
  | _, _ =>
    match op with
    | .eq => .ok false
    | .ne => .ok true
    | _ => .error .typeError

/-- `len` of a `PyVal`. -/
def pyLen : PyVal → Nat
  | .tup xs => xs.length
  | .emptyList => 0

/-- `x[:n]` of a `PyVal`; slicing keeps the Python type. -/
def pySlice : PyVal → Nat → PyVal
  | .tup xs, n => .tup (xs.take n)
  | .emptyList, _ => .emptyList

/-- The `fuzzy` wrapper of the source: truncate both arguments to the
length of the shorter one, then compare. -/
def fuzzy (cmp : PyVal → PyVal → Except PyErr Bool) : PyVal → PyVal → Except PyErr Bool :=
  fun a b =>
    let m := min (pyLen a) (pyLen b)
    cmp (pySlice a m) (pySlice b m)

/-- An operator dictionary: symbol to comparison function, in insertion
order (the metaclass also builds the regular expression from the keys in
this order). -/
abbrev OpTable := List (String × (PyVal → PyVal → Except PyErr Bool))

/-- The `operators` attribute of the task class `ver_base`. -/
def ver_base.operators : OpTable :=
  [("<", opApply .lt), ("<=", opApply .le),
   (">", opApply .gt), (">=", opApply .ge),
   ("==", opApply .eq), ("!=", opApply .ne)]

/-- The `operators` attribute of `subver`: the same six symbols, every
function wrapped in `fuzzy`. -/
def subver.operators : OpTable :=
  ver_base.operators.map fun e => (e.1, fuzzy e.2)

/-- The `operators` attribute of `ver`: the base dictionary extended with
a `?`-suffixed fuzzy variant of every operator. -/
def ver.operators : OpTable :=
  ver_base.operators ++ ver_base.operators.map fun e => (e.1 ++ "?", fuzzy e.2)

/-- The operator symbols a class's marker pattern is compiled from. -/
def markerOps (tbl : OpTable) : List String := tbl.map fun e => e.1

/-- Dictionary lookup in an operator table. -/
def dictLookup : OpTable → String → Option (PyVal → PyVal → Except PyErr Bool)
  | [], _ => none
  | e :: rest, k => if e.1 = k then some e.2 else dictLookup rest k

/-! ### Version parsing -/

/-- Numeric value of a digit string. -/
def digitsToNat (s : List Char) : Nat :=
  s.foldl (fun n c => 10 * n + (c.toNat - '0'.toNat)) 0

/-- Python's `int` on a component produced by splitting a version string:
fails with `ValueError` on an empty or non-numeric component. -/
def pyInt (s : List Char) : Except PyErr Nat :=
  if !s.isEmpty && s.all Char.isDigit then .ok (digitsToNat s) else .error .valueError

/-- `str.split('.')`. -/
def splitDots : List Char → List (List Char)
  | [] => [[]]
  | c :: rest =>
    match splitDots rest with
    | [] => [[]]
    | g :: gs => if c = '.' then [] :: g :: gs else (c :: g) :: gs

/-- The module function `version`: parse a version string into a tuple by
splitting on dots and converting every component with `int`. -/
def version (s : String) : Except PyErr (List Nat) :=
  (splitDots s.data).mapM pyInt

/-! ### Version resolution -/

/-- ASCII uppercasing, `str.upper`. -/
def pyUpper (s : String) : String := ⟨s.data.map Char.toUpper⟩

/-- Association-list lookup (a Python dict restricted to the keys that
occur in a run). -/
def lookupA : List (String × List Nat) → String → Option (List Nat)
  | [], _ => none
  | e :: rest, k => if e.1 = k then some e.2 else lookupA rest k

/-- The read-only configuration a run sees: the optional `versions`
dictionary handed to the task generator (`none` models a generator
without that attribute) and the environment-like `ConfigSet`. -/
structure Cfg where
  versions : Option (List (String × List Nat))
  env : List (String × List Nat)

/-- Lookup in waf's `ConfigSet`: an absent key yields the empty list, it
does not raise. -/
def envLookup (env : List (String × List Nat)) (key : String) : PyVal :=
  match lookupA env key with
  | some v => .tup v
  | none => .emptyList

/-- `ver_base.get_version`: the versions dictionary under the exact name,
else under the uppercase name, else (also when there is no dictionary at
all) the environment under `NAME_VERSION`. -/
def get_version (cfg : Cfg) (program : String) : PyVal :=
  match cfg.versions with
  | none => envLookup cfg.env (pyUpper program ++ "_VERSION")
  | some vs =>
    match lookupA vs program with
    | some v => .tup v
    | none =>
      match lookupA vs (pyUpper program) with
      | some v => .tup v
      | none => envLookup cfg.env (pyUpper program ++ "_VERSION")

/-! ### The line filter -/

/-- Evaluate a matched marker:
`self.operators[op](self.get_version(program), version(ver))`.  The
dictionary lookup happens first, then the resolved value is fetched (this
never raises), then the marker's version string is parsed (`ValueError`
propagates), then the comparison function runs (`TypeError` from
comparing a list with a tuple propagates to the caller). -/
def evalMarker (tbl : OpTable) (cfg : Cfg) (m : Marker) : Except PyErr Bool :=
  match dictLookup tbl m.operator with
  | none => .error .keyError
  | some f =>
    let resolved := get_version cfg m.program
    match version m.version with
    | .error e => .error e
    | .ok mv => f resolved (.tup mv)

/-- One line of `ver_base.compatible`: no marker means the line is yielded
unchanged; otherwise the first marker is evaluated, a `TypeError` is
turned into `WafError('version missing for program …')`, a true
comparison yields the line with every pattern match removed, and a false
comparison yields nothing.  The second component is the program name
added to the referenced set (added even when the line is dropped). -/
def compatibleLine (tbl : OpTable) (cfg : Cfg) (line : String) :
    Except PyErr (Option String × Option String) :=
  match searchMarker (markerOps tbl) line.data with
  | none => .ok (some line, none)
  | some mm =>
    match evalMarker tbl cfg mm.marker with
    | .error .typeError =>
      .error (.wafError ("version missing for program " ++ mm.marker.program))
    | .error e => .error e
    | .ok true => .ok (some ⟨subAll (markerOps tbl) line.data⟩, some mm.marker.program)
    | .ok false => .ok (none, some mm.marker.program)

/-- Append a newly referenced program to the set (kept as a duplicate-free
list in first-reference order; `sig_vars` only ever sorts it). -/
def addProgram (progs : List String) : Option String → List String
  | some p => if progs.contains p then progs else progs ++ [p]
  | none => progs

/-- `ver_base.compatible` over a list of lines, threading the
referenced-programs set.  An exception raised at any line aborts the
whole generator: no output lines and no `raw_deps` update survive. -/
def compatible (tbl : OpTable) (cfg : Cfg) :
    List String → List String → Except PyErr (List String × List String)
  | [], progs => .ok ([], progs)
  | line :: rest, progs =>
    match compatibleLine tbl cfg line with
    | .error e => .error e
    | .ok (out, prog) =>
      match compatible tbl cfg rest (addProgram progs prog) with
      | .error e => .error e
      | .ok (outs, ps) => .ok (out.toList ++ outs, ps)

/-- `compatible` started with the empty referenced set. -/
def compatibleRun (tbl : OpTable) (cfg : Cfg) (lines : List String) :
    Except PyErr (List String × List String) :=
  compatible tbl cfg lines []

/-- `'\n'.join`. -/
def joinLines : List String → String
  | [] => ""
  | [x] => x
  | x :: y :: xs => x ++ "\n" ++ joinLines (y :: xs)

/-- `ver_base.run`: the single write of the joined kept lines.  Because
`'\n'.join` drains the generator before `write` is called, an error while
filtering means nothing at all is written — the `Except.error` result. -/
def run (tbl : OpTable) (cfg : Cfg) (lines : List String) : Except PyErr String :=
  match compatibleRun tbl cfg lines with
  | .error e => .error e
  | .ok (outs, _) => .ok (joinLines outs)

/-! ### The dependency signature -/

/-- The canonical string form of a resolved version,
`'.'.join(map(str, …))`.  A program whose resolution finds nothing
contributes the empty string: joining the empty list is already `''`, and
the `except KeyError` branch of `sig_vars` feeds `''` likewise. -/
def versionString (cfg : Cfg) (p : String) : String :=
  match get_version cfg p with
  | .tup xs => joinDotted xs
  | .emptyList => ""
where
  /-- Dot-joined decimal components. -/
  joinDotted : List Nat → String
    | [] => ""
    | [x] => toString x
    | x :: y :: xs => toString x ++ "." ++ joinDotted (y :: xs)

/-- The strings `sig_vars` feeds to the hash object for a given program
order: for every program, its name and then its version string. -/
def sigFeed (cfg : Cfg) : List String → List String
  | [] => []
  | p :: rest => p :: versionString cfg p :: sigFeed cfg rest

/-- Python's string ordering (code-point lexicographic), as a strict
comparison on the character lists. -/
def chLt : List Char → List Char → Bool
  | [], [] => false
  | [], _ :: _ => true
  | _ :: _, [] => false
  | a :: as, b :: bs => if a < b then true else if b < a then false else chLt as bs

/-- `a <= b` on strings, as Python's `sorted` uses it. -/
def strLeB (a b : String) : Bool := !chLt b.data a.data

/-- The ordering relation `sorted` arranges program names by. -/
def strLe (a b : String) : Prop := strLeB a b = true

instance : DecidableRel strLe := fun a b => by
  unfold strLe
  infer_instance

/-- The data `ver_base.sig_vars` hashes beyond the base-class variables:
the referenced programs in `sorted` order, each followed by its currently
resolved version string.  The digest of the task is a function of this
concatenation, so every property of the digest is stated on it. -/
def sig_vars_data (cfg : Cfg) (programs : List String) : List String :=
  sigFeed cfg (List.insertionSort strLe programs)

/-! ### Structural lemmas about the grammar and `subAll` -/

lemma matchHere_pos {ops : List String} {s : List Char} {m : Marker} {n : Nat}
    (h : matchHere ops s = some (m, n)) : 1 ≤ n := by
  cases s with
  | nil => simp [matchHere] at h
  | cons c rest =>
    simp only [matchHere] at h
    split at h
    · split at h
      · simp at h
      · split at h
        · simp only [Option.some.injEq, Prod.mk.injEq] at h
          omega
        · simp at h
    · simp at h

lemma searchMarker_pos {ops : List String} : ∀ {s : List Char} {mm : MarkerMatch},
    searchMarker ops s = some mm → 1 ≤ mm.start + mm.len := by
  intro s
  induction s with
  | nil => intro mm h; simp [searchMarker] at h
  | cons c rest ih =>
    intro mm h
    simp only [searchMarker] at h
    split at h
    · rename_i m n heq
      have hn := matchHere_pos heq
      simp only [Option.some.injEq] at h
      subst h
      simpa using hn
    · rw [Option.map_eq_some'] at h
      obtain ⟨mm', _, rfl⟩ := h
      simp
      omega

lemma subAllF_congr (ops : List String) : ∀ (f g : Nat) (s : List Char),
    s.length ≤ f → s.length ≤ g → subAllF ops f s = subAllF ops g s := by
  intro f
  induction f with
  | zero =>
    intro g s hf hg
    have hs : s = [] := List.length_eq_zero.mp (Nat.le_zero.mp hf)
    subst hs
    cases g with
    | zero => rfl
    | succ g => simp [subAllF, searchMarker]
  | succ f ih =>
    intro g s hf hg
    cases g with
    | zero =>
      have hs : s = [] := List.length_eq_zero.mp (Nat.le_zero.mp hg)
      subst hs
      simp [subAllF, searchMarker]
    | succ g =>
      simp only [subAllF]
      split
      · rfl
      · rename_i mm hsm
        have hpos := searchMarker_pos hsm
        have hd : (s.drop (mm.start + mm.len)).length = s.length - (mm.start + mm.len) := by
          simp
        congr 1
        apply ih
        · rw [hd]; omega
        · rw [hd]; omega

lemma subAll_eq (ops : List String) (s : List Char) :
    subAll ops s =
      match searchMarker ops s with
      | none => s
      | some mm => s.take mm.start ++ subAll ops (s.drop (mm.start + mm.len)) := by
  cases s with
  | nil => rfl
  | cons c rest =>
    show subAllF ops (rest.length + 1) (c :: rest) = _
    simp only [subAllF]
    split
    · rfl
    · rename_i mm hsm
      have hpos := searchMarker_pos hsm
      have hd : ((c :: rest).drop (mm.start + mm.len)).length
          = rest.length + 1 - (mm.start + mm.len) := by
        simp
      unfold subAll
      congr 1
      apply subAllF_congr
      · rw [hd]; omega
      · exact Nat.le_refl _

lemma subAll_of_none (ops : List String) (s : List Char)
    (h : searchMarker ops s = none) : subAll ops s = s := by
  rw [subAll_eq ops s, h]

lemma subAll_of_some (ops : List String) (s : List Char) (mm : MarkerMatch)
    (h : searchMarker ops s = some mm) :
    subAll ops s = s.take mm.start ++ subAll ops (s.drop (mm.start + mm.len)) := by
  rw [subAll_eq ops s, h]

/-! ### Per-line behaviour of the filter -/

lemma compatibleLine_no_marker (tbl : OpTable) (cfg : Cfg) (line : String)
    (h : searchMarker (markerOps tbl) line.data = none) :
    compatibleLine tbl cfg line = .ok (some line, none) := by
  simp only [compatibleLine, h]

lemma compatibleLine_kept (tbl : OpTable) (cfg : Cfg) (line : String) (mm : MarkerMatch)
    (h : searchMarker (markerOps tbl) line.data = some mm)
    (he : evalMarker tbl cfg mm.marker = .ok true) :
    compatibleLine tbl cfg line =
      .ok (some ⟨subAll (markerOps tbl) line.data⟩, some mm.marker.program) := by
  simp only [compatibleLine, h, he]

lemma compatibleLine_dropped (tbl : OpTable) (cfg : Cfg) (line : String) (mm : MarkerMatch)
    (h : searchMarker (markerOps tbl) line.data = some mm)
    (he : evalMarker tbl cfg mm.marker = .ok false) :
    compatibleLine tbl cfg line = .ok (none, some mm.marker.program) := by
  simp only [compatibleLine, h, he]

lemma compatible_error_first (tbl : OpTable) (cfg : Cfg) :
    ∀ (pre : List String) (line : String) (post progs : List String) (e : PyErr),
      (∀ l ∈ pre, ∃ out prog, compatibleLine tbl cfg l = .ok (out, prog)) →
      compatibleLine tbl cfg line = .error e →
      compatible tbl cfg (pre ++ line :: post) progs = .error e := by
  intro pre
  induction pre with
  | nil =>
    intro line post progs e _ hline
    simp only [List.nil_append, compatible, hline]
  | cons a pre ih =>
    intro line post progs e hpre hline
    obtain ⟨out, prog, ha⟩ := hpre a (by simp)
    have hrest := ih line post (addProgram progs prog) e
      (fun l hl => hpre l (by simp [hl])) hline
    simp only [List.cons_append, compatible, List.append_eq, ha, hrest]

/-! ### The version field of the grammar accepts every digit-led run of digits and dots -/

lemma takeWhile_cons_pos {p : Char → Bool} {a : Char} (l : List Char) (h : p a = true) :
    List.takeWhile p (a :: l) = a :: List.takeWhile p l := by
  simp [List.takeWhile, h]

lemma takeWhile_cons_neg {p : Char → Bool} {a : Char} (l : List Char) (h : p a = false) :
    List.takeWhile p (a :: l) = [] := by
  simp [List.takeWhile, h]

lemma takeWhile_append_all {p : Char → Bool} :
    ∀ (l t : List Char), (∀ x ∈ l, p x = true) →
      List.takeWhile p (l ++ t) = l ++ List.takeWhile p t := by
  intro l
  induction l with
  | nil => intro t _; simp
  | cons a l ih =>
    intro t h
    rw [List.cons_append, takeWhile_cons_pos _ (h a (by simp)),
      ih t (fun x hx => h x (by simp [hx])), List.cons_append]

lemma grammar_version_run (c : Char) (v : List Char) (hc : c.isDigit = true)
    (hv : ∀ x ∈ v, isDotDigit x = true) :
    searchMarker (markerOps ver.operators) ('@' :: 'p' :: '>' :: c :: (v ++ ['@'])) =
      some ⟨0, ⟨"p", ">", ⟨c :: v⟩⟩, v.length + 5⟩ := by
  have h0 : isDotDigit c = true := by simp [isDotDigit, hc]
  have hrun : List.takeWhile isDotDigit (c :: (v ++ ['@'])) = c :: v := by
    rw [takeWhile_cons_pos _ h0, takeWhile_append_all v ['@'] hv,
      takeWhile_cons_neg _ (show isDotDigit '@' = false by decide)]
    simp
  have hdrop : (c :: (v ++ ['@'])).drop (v.length + 1) = ['@'] := by
    have he : c :: (v ++ ['@']) = (c :: v) ++ ['@'] := by simp
    have hl : (c :: v).length = v.length + 1 := by simp
    rw [he, ← hl, List.drop_left]
  have hmv : matchVersion (c :: (v ++ ['@'])) = some (⟨c :: v⟩, v.length + 2) := by
    simp only [matchVersion, hc, if_true, hrun]
    have hll : (c :: v).length = v.length + 1 := by simp
    rw [hll, hdrop]
    simp [isSpaceChar]
  have hops : markerOps ver.operators =
      ["<", "<=", ">", ">=", "==", "!=", "<?", "<=?", ">?", ">=?", "==?", "!=?"] := rfl
  have htry : tryOps (markerOps ver.operators) ('>' :: c :: (v ++ ['@'])) =
      some (">", ⟨c :: v⟩, v.length + 3) := by
    rw [hops]
    simp only [tryOps,
      show leadsWith "<".data ('>' :: c :: (v ++ ['@'])) = false from rfl,
      show leadsWith "<=".data ('>' :: c :: (v ++ ['@'])) = false from rfl,
      show leadsWith ">".data ('>' :: c :: (v ++ ['@'])) = true from rfl,
      if_false, if_true, Bool.false_eq_true, List.drop_succ_cons, List.drop_zero,
      show String.length ">" = 1 from rfl, hmv]
    have harith : 1 + (v.length + 2) = v.length + 3 := by omega
    rw [harith]
  have hmh : matchHere (markerOps ver.operators) ('@' :: 'p' :: '>' :: c :: (v ++ ['@'])) =
      some (⟨"p", ">", ⟨c :: v⟩⟩, v.length + 5) := by
    simp only [matchHere,
      show List.takeWhile isWordChar ('p' :: '>' :: c :: (v ++ ['@'])) =
        'p' :: List.takeWhile isWordChar ('>' :: c :: (v ++ ['@'])) from
          takeWhile_cons_pos _ rfl,
      show List.takeWhile isWordChar ('>' :: c :: (v ++ ['@'])) = [] from
        takeWhile_cons_neg _ rfl,
      List.drop_succ_cons, List.drop_zero, List.length_cons, List.length_nil, htry]
    rw [if_pos trivial, if_neg (show ¬(['p'] : List Char) = [] by simp)]
    simp only [Option.some.injEq, Prod.mk.injEq, Marker.mk.injEq]
    exact ⟨trivial, by omega⟩
  simp only [searchMarker, hmh]

/-! ### Code-point string ordering, as Python's `sorted` compares `str` -/

lemma chLt_nil_right : ∀ (a : List Char), chLt a [] = false
  | [] => rfl
  | _ :: _ => rfl

lemma chLt_asymm : ∀ {a b : List Char}, chLt a b = true → chLt b a = false := by
  intro a
  induction a with
  | nil =>
    intro b h
    cases b with
    | nil => simp [chLt] at h
    | cons d bs => exact chLt_nil_right _
  | cons c as ih =>
    intro b h
    cases b with
    | nil => simp [chLt] at h
    | cons d bs =>
      simp only [chLt] at h ⊢
      by_cases h1 : c < d
      · rw [if_neg (lt_asymm h1), if_pos h1]
      · by_cases h2 : d < c
        · rw [if_neg h1, if_pos h2] at h
          exact absurd h (by simp)
        · rw [if_neg h1, if_neg h2] at h
          rw [if_neg h2, if_neg h1]
          exact ih h

lemma chLt_eq_of_not : ∀ (a b : List Char), chLt a b = false → chLt b a = false → a = b := by
  intro a
  induction a with
  | nil =>
    intro b h1 _
    cases b with
    | nil => rfl
    | cons d bs => simp [chLt] at h1
  | cons c as ih =>
    intro b h1 h2
    cases b with
    | nil => simp [chLt] at h2
    | cons d bs =>
      simp only [chLt] at h1 h2
      by_cases hcd : c < d
      · rw [if_pos hcd] at h1
        exact absurd h1 (by simp)
      · by_cases hdc : d < c
        · rw [if_pos hdc] at h2
          exact absurd h2 (by simp)
        · have hce : c = d := le_antisymm (not_lt.mp hdc) (not_lt.mp hcd)
          rw [if_neg hcd, if_neg hdc] at h1
          rw [if_neg hdc, if_neg hcd] at h2
          rw [hce, ih bs h1 h2]

lemma chLt_trans_false : ∀ (a b c : List Char),
    chLt b a = false → chLt c b = false → chLt c a = false := by
  intro a
  induction a with
  | nil => intro b c _ _; exact chLt_nil_right c
  | cons x as ih =>
    intro b c h1 h2
    cases b with
    | nil => simp [chLt] at h1
    | cons y bs =>
      cases c with
      | nil => simp [chLt] at h2
      | cons z cs =>
        simp only [chLt] at h1 h2 ⊢
        by_cases hyx : y < x
        · rw [if_pos hyx] at h1
          exact absurd h1 (by simp)
        · by_cases hzy : z < y
          · rw [if_pos hzy] at h2
            exact absurd h2 (by simp)
          · have hxy : x ≤ y := not_lt.mp hyx
            have hyz : y ≤ z := not_lt.mp hzy
            have hxz : x ≤ z := le_trans hxy hyz
            rw [if_neg (not_lt.mpr hxz)]
            by_cases hxz2 : x < z
            · rw [if_pos hxz2]
            · have hez : x = z := le_antisymm hxz (not_lt.mp hxz2)
              have hyx2 : y ≤ x := by rw [hez]; exact hyz
              have hey : x = y := le_antisymm hxy hyx2
              have hxy2 : ¬x < y := by rw [← hey]; exact lt_irrefl x
              have hyz2 : ¬y < z := by rw [← hey, hez]; exact lt_irrefl z
              rw [if_neg hyx, if_neg hxy2] at h1
              rw [if_neg hzy, if_neg hyz2] at h2
              rw [if_neg hxz2]
              exact ih bs cs h1 h2

instance : IsTotal String strLe := by
  constructor
  intro a b
  unfold strLe strLeB
  by_cases h : chLt b.data a.data = true
  · right
    simp [chLt_asymm h]
  · left
    simp [Bool.not_eq_true] at h
    simp [h]

instance : IsTrans String strLe := by
  constructor
  intro a b c h1 h2
  unfold strLe strLeB at h1 h2 ⊢
  simp only [Bool.not_eq_true'] at h1 h2 ⊢
  exact chLt_trans_false a.data b.data c.data h1 h2

instance : IsAntisymm String strLe := by
  constructor
  intro a b h1 h2
  unfold strLe strLeB at h1 h2
  simp only [Bool.not_eq_true'] at h1 h2
  have hd : b.data = a.data := chLt_eq_of_not b.data a.data h1 h2
  cases a
  cases b
  exact congrArg String.mk hd.symm

/-! ### Claims -/

/-- C1 (amended): for every input line, the filter emits a no-marker line
byte-identical; when the first marker's comparison (resolved version on
the left, marker version on the right) is true it emits the line with
every grammar-matching span removed — the matched marker span with its
trailing whitespace, and likewise any later span of the line that matches
the grammar — and when the comparison is false it drops the line
entirely. -/
theorem claim_C1 (tbl : OpTable) (cfg : Cfg) (line : String) :
    (searchMarker (markerOps tbl) line.data = none →
      compatibleLine tbl cfg line = .ok (some line, none)) ∧
    (∀ mm : MarkerMatch, searchMarker (markerOps tbl) line.data = some mm →
      (evalMarker tbl cfg mm.marker = .ok true →
        compatibleLine tbl cfg line =
          .ok (some (String.mk (subAll (markerOps tbl) line.data)), some mm.marker.program)) ∧
      (evalMarker tbl cfg mm.marker = .ok false →
        compatibleLine tbl cfg line = .ok (none, some mm.marker.program))) := by
  refine ⟨fun h => compatibleLine_no_marker tbl cfg line h,
    fun mm h => ⟨fun he => compatibleLine_kept tbl cfg line mm h he,
      fun he => compatibleLine_dropped tbl cfg line mm h he⟩⟩

/-- C1 witness: the three clauses at concrete inputs — a marker-free
line, a marker whose comparison is true, and one whose comparison is
false. -/
theorem claim_C1_witness :
    compatibleLine ver.operators ⟨some [("p", [0])], []⟩ "x" = .ok (some "x", none) ∧
    compatibleLine ver.operators ⟨some [("p", [0])], []⟩ "@p<1@y" = .ok (some "y", some "p") ∧
    compatibleLine ver.operators ⟨some [("p", [0])], []⟩ "@p>1@y" = .ok (none, some "p") :=
  ⟨(claim_C1 ver.operators ⟨some [("p", [0])], []⟩ "x").1 (by decide),
   ((claim_C1 ver.operators ⟨some [("p", [0])], []⟩ "@p<1@y").2
     ⟨0, ⟨"p", "<", "1"⟩, 5⟩ (by decide)).1 (by decide),
   ((claim_C1 ver.operators ⟨some [("p", [0])], []⟩ "@p>1@y").2
     ⟨0, ⟨"p", ">", "1"⟩, 5⟩ (by decide)).2 (by decide)⟩

/-- C1 counterexample: on a kept line holding a second grammar-matching
span, the emitted line is not the original with only the matched marker
span removed — `re.sub` also removes the later span. -/
theorem claim_C1_counterexample :
    compatibleLine ver.operators ⟨some [("p", [1])], []⟩ "@p<9@a@p<9@b" =
      .ok (some "ab", some "p") ∧
    compatibleLine ver.operators ⟨some [("p", [1])], []⟩ "@p<9@a@p<9@b" ≠
      .ok (some "a@p<9@b", some "p") :=
  ⟨by decide, by decide⟩

/-- C2 (amended): processing the lines `x`, `@p>1@y`, `@p<1@z` with `p`
resolved to `(2,)` produces exactly `x\ny`: the line whose comparison is
true (`2>1`) is KEPT with the marker stripped, and the line whose
comparison is false (`2<1`) is DROPPED. -/
theorem claim_C2 :
    compatibleRun ver.operators ⟨some [("p", [2])], []⟩ ["x", "@p>1@y", "@p<1@z"] =
      .ok (["x", "y"], ["p"]) ∧
    run ver.operators ⟨some [("p", [2])], []⟩ ["x", "@p>1@y", "@p<1@z"] = .ok "x\ny" :=
  ⟨by decide, by decide⟩

/-- C2 counterexample: the output is not `x\nz` — the claim has the
keep/drop direction backwards. -/
theorem claim_C2_counterexample :
    run ver.operators ⟨some [("p", [2])], []⟩ ["x", "@p>1@y", "@p<1@z"] ≠ .ok "x\nz" := by
  decide

/-- C3: with no version entry anywhere for `prog`, the ordering operators
do raise the missing-version error, but `==`, `!=` and their fuzzy
variants silently compare the empty placeholder with the marker tuple:
`@prog==1@` is dropped without error and `@prog!=1@` is kept, contrary to
the documented hard-error contract. -/
theorem claim_C3_code_eval :
    compatibleLine ver.operators ⟨some [], []⟩ "@prog==1@" = .ok (none, some "prog") ∧
    compatibleLine ver.operators ⟨some [], []⟩ "@prog!=1@" = .ok (some "", some "prog") ∧
    compatibleLine ver.operators ⟨some [], []⟩ "@prog==?1@" = .ok (none, some "prog") ∧
    compatibleLine ver.operators ⟨some [], []⟩ "@prog!=?1@" = .ok (some "", some "prog") ∧
    compatibleLine ver.operators ⟨some [], []⟩ "@prog<1@" =
      .error (.wafError "version missing for program prog") ∧
    compatibleLine ver.operators ⟨some [], []⟩ "@prog<=1@" =
      .error (.wafError "version missing for program prog") ∧
    compatibleLine ver.operators ⟨some [], []⟩ "@prog>1@" =
      .error (.wafError "version missing for program prog") ∧
    compatibleLine ver.operators ⟨some [], []⟩ "@prog>=1@" =
      .error (.wafError "version missing for program prog") :=
  ⟨by decide, by decide, by decide, by decide, by decide, by decide, by decide, by decide⟩

/-- C4 (amended): `subAll` removes exactly the grammar-matching spans
(leftmost first, then again after each span) and keeps everything else;
a kept line is the original with every such span removed; only the
earliest-beginning marker is consulted for the keep/drop decision; and
left-over `@…@`-shaped text survives only when it does not match the
grammar. -/
theorem claim_C4 :
    (∀ (ops : List String) (s : List Char) (mm : MarkerMatch),
      searchMarker ops s = some mm →
      subAll ops s = s.take mm.start ++ subAll ops (s.drop (mm.start + mm.len))) ∧
    (∀ (ops : List String) (s : List Char), searchMarker ops s = none → subAll ops s = s) ∧
    (∀ (tbl : OpTable) (cfg : Cfg) (line : String) (mm : MarkerMatch),
      searchMarker (markerOps tbl) line.data = some mm →
      evalMarker tbl cfg mm.marker = .ok true →
      compatibleLine tbl cfg line =
        .ok (some (String.mk (subAll (markerOps tbl) line.data)), some mm.marker.program)) ∧
    compatibleLine ver.operators ⟨some [("p", [1])], []⟩ "@p<9@a@x@" =
      .ok (some "a@x@", some "p") := by
  refine ⟨fun ops s mm h => subAll_of_some ops s mm h,
    fun ops s h => subAll_of_none ops s h,
    fun tbl cfg line mm h he => compatibleLine_kept tbl cfg line mm h he,
    by decide⟩

/-- C4 witness: the span-removal equations and the kept-line clause at
concrete inputs. -/
theorem claim_C4_witness :
    subAll (markerOps ver.operators) "@p<9@a@p<9@b".data =
      "@p<9@a@p<9@b".data.take 0 ++
        subAll (markerOps ver.operators) ("@p<9@a@p<9@b".data.drop 5) ∧
    subAll (markerOps ver.operators) "hello".data = "hello".data ∧
    compatibleLine ver.operators ⟨some [("q", [1])], []⟩ "@q<5@tail" =
      .ok (some "tail", some "q") :=
  ⟨claim_C4.1 (markerOps ver.operators) "@p<9@a@p<9@b".data
     ⟨0, ⟨"p", "<", "9"⟩, 5⟩ (by decide),
   claim_C4.2.1 (markerOps ver.operators) "hello".data (by decide),
   claim_C4.2.2.1 ver.operators ⟨some [("q", [1])], []⟩ "@q<5@tail"
     ⟨0, ⟨"q", "<", "5"⟩, 5⟩ (by decide) (by decide)⟩

/-- C4 counterexample: a kept line does not retain later text that itself
matches the marker grammar — the `@q<9@` span is removed as well, even
though only the `p` marker was consulted (no version for `q` is ever
resolved). -/
theorem claim_C4_counterexample :
    compatibleLine ver.operators ⟨some [("p", [1])], []⟩ "@p<9@a@q<9@b" =
      .ok (some "ab", some "p") ∧
    compatibleLine ver.operators ⟨some [("p", [1])], []⟩ "@p<9@a@q<9@b" ≠
      .ok (some "a@q<9@b", some "p") :=
  ⟨by decide, by decide⟩

/-- C5: the fuzzy wrapper truncates both tuples to the shorter length and
then applies the base comparison, for every comparison function; and the
concrete evaluations through the `ver` operator dictionary:
`8==?8.1` true, `8==8.1` false, `8<?9.5` true, `8<9` true, and `8<8.1`
true under exact-mode ordering. -/
theorem claim_C5 :
    (∀ (cmp : PyVal → PyVal → Except PyErr Bool) (xs ys : List Nat),
      fuzzy cmp (.tup xs) (.tup ys) =
        cmp (.tup (xs.take (min xs.length ys.length)))
            (.tup (ys.take (min xs.length ys.length)))) ∧
    evalMarker ver.operators ⟨some [("p", [8])], []⟩ ⟨"p", "==?", "8.1"⟩ = .ok true ∧
    evalMarker ver.operators ⟨some [("p", [8])], []⟩ ⟨"p", "==", "8.1"⟩ = .ok false ∧
    evalMarker ver.operators ⟨some [("p", [8])], []⟩ ⟨"p", "<?", "9.5"⟩ = .ok true ∧
    evalMarker ver.operators ⟨some [("p", [8])], []⟩ ⟨"p", "<", "9"⟩ = .ok true ∧
    evalMarker ver.operators ⟨some [("p", [8])], []⟩ ⟨"p", "<", "8.1"⟩ = .ok true :=
  ⟨fun cmp xs ys => rfl, by decide, by decide, by decide, by decide, by decide⟩

/-- C6: version resolution consults the explicit map under the exact
name, then the explicit map under the uppercase name, then the
environment under `UPPER_VERSION`, returning the first value found. -/
theorem claim_C6 (vs env : List (String × List Nat)) (p : String) (v : List Nat) :
    (lookupA vs p = some v → get_version ⟨some vs, env⟩ p = .tup v) ∧
    (lookupA vs p = none → lookupA vs (pyUpper p) = some v →
      get_version ⟨some vs, env⟩ p = .tup v) ∧
    (lookupA vs p = none → lookupA vs (pyUpper p) = none →
      lookupA env (pyUpper p ++ "_VERSION") = some v →
      get_version ⟨some vs, env⟩ p = .tup v) := by
  refine ⟨fun h1 => ?_, fun h1 h2 => ?_, fun h1 h2 h3 => ?_⟩
  · simp [get_version, h1]
  · simp [get_version, h1, h2]
  · simp [get_version, envLookup, h1, h2, h3]

/-- C6 witness: explicit entry wins over an environment entry, the
uppercase key of the explicit map is found, and with neither the
environment entry is returned. -/
theorem claim_C6_witness :
    get_version ⟨some [("prog", [1])], [("PROG_VERSION", [9])]⟩ "prog" = .tup [1] ∧
    get_version ⟨some [("PROG", [5])], [("PROG_VERSION", [9])]⟩ "prog" = .tup [5] ∧
    get_version ⟨some [("other", [3])], [("PROG_VERSION", [9])]⟩ "prog" = .tup [9] :=
  ⟨(claim_C6 [("prog", [1])] [("PROG_VERSION", [9])] "prog" [1]).1 (by decide),
   (claim_C6 [("PROG", [5])] [("PROG_VERSION", [9])] "prog" [5]).2.1 (by decide) (by decide),
   (claim_C6 [("other", [3])] [("PROG_VERSION", [9])] "prog" [9]).2.2
     (by decide) (by decide) (by decide)⟩

/-- C7 (amended): the grammar's version field is `\d[\.\d]*` — a digit
followed by any run of digits and dots — so `@p>1..2@` and `@p>1.@` are
recognised as markers; parsing such a version then raises `ValueError`
(a malformed-version failure that aborts the file) instead of the line
being emitted unchanged. -/
theorem claim_C7 :
    (∀ (c : Char) (v : List Char), c.isDigit = true → (∀ x ∈ v, isDotDigit x = true) →
      searchMarker (markerOps ver.operators) ('@' :: 'p' :: '>' :: c :: (v ++ ['@'])) =
        some ⟨0, ⟨"p", ">", ⟨c :: v⟩⟩, v.length + 5⟩) ∧
    version "1..2" = .error .valueError ∧
    version "1." = .error .valueError ∧
    compatibleLine ver.operators ⟨some [("p", [2])], []⟩ "@p>1..2@" = .error .valueError ∧
    compatibleLine ver.operators ⟨some [("p", [2])], []⟩ "@p>1.@" = .error .valueError :=
  ⟨fun c v hc hv => grammar_version_run c v hc hv, by decide, by decide, by decide, by decide⟩

/-- C7 witness: the grammar clause instantiated at the doubled-dot
version `1..2`. -/
theorem claim_C7_witness :
    searchMarker (markerOps ver.operators)
      ('@' :: 'p' :: '>' :: '1' :: (['.', '.', '2'] ++ ['@'])) =
      some ⟨0, ⟨"p", ">", ⟨'1' :: ['.', '.', '2']⟩⟩, 8⟩ :=
  claim_C7.1 '1' ['.', '.', '2'] (by decide) (by decide)

/-- C7 counterexample: on `@p>1..2@` the grammar does find a marker and
the line is not emitted unchanged (processing fails with `ValueError`
instead). -/
theorem claim_C7_counterexample :
    searchMarker (markerOps ver.operators) "@p>1..2@".data ≠ none ∧
    compatibleLine ver.operators ⟨some [("p", [2])], []⟩ "@p>1..2@" ≠
      .ok (some "@p>1..2@", none) :=
  ⟨by decide, by decide⟩

/-- C8: an error at any line makes the whole run fail — the single write
never happens, so not even a prefix of the kept lines is produced — and
on success the output is exactly the kept lines joined with one newline,
written in full. -/
theorem claim_C8 (tbl : OpTable) (cfg : Cfg) :
    (∀ (lines : List String) (e : PyErr),
      compatibleRun tbl cfg lines = .error e → run tbl cfg lines = .error e) ∧
    (∀ (lines kept ps : List String),
      compatibleRun tbl cfg lines = .ok (kept, ps) →
      run tbl cfg lines = .ok (joinLines kept)) ∧
    (∀ (pre : List String) (line : String) (post progs : List String) (e : PyErr),
      (∀ l ∈ pre, ∃ out prog, compatibleLine tbl cfg l = .ok (out, prog)) →
      compatibleLine tbl cfg line = .error e →
      compatible tbl cfg (pre ++ line :: post) progs = .error e) := by
  refine ⟨fun lines e h => ?_, fun lines kept ps h => ?_, compatible_error_first tbl cfg⟩
  · simp [run, h]
  · simp [run, h]

/-- C8 witness: a file whose second line references an unresolvable
program produces no output at all (not the first line), a clean file
produces the joined kept lines, and the first-error clause at a concrete
split. -/
theorem claim_C8_witness :
    run ver.operators ⟨some [], []⟩ ["a", "@p<1@b", "c"] =
      .error (.wafError "version missing for program p") ∧
    run ver.operators ⟨some [("p", [2])], []⟩ ["a", "@p<4@b"] = .ok "a\nb" ∧
    compatible ver.operators ⟨some [], []⟩ (["a"] ++ "@p<1@b" :: ["c"]) [] =
      .error (.wafError "version missing for program p") :=
  ⟨(claim_C8 ver.operators ⟨some [], []⟩).1 ["a", "@p<1@b", "c"]
     (.wafError "version missing for program p") (by decide),
   (claim_C8 ver.operators ⟨some [("p", [2])], []⟩).2.1 ["a", "@p<4@b"]
     ["a", "b"] ["p"] (by decide),
   (claim_C8 ver.operators ⟨some [], []⟩).2.2 ["a"] "@p<1@b" ["c"] []
     (.wafError "version missing for program p")
     (by intro l hl; simp at hl; subst hl; exact ⟨some "a", none, by decide⟩)
     (by decide)⟩

/-- C9: the signature data is a function of the referenced-programs set
alone (any two orders of the same programs feed identical data to the
hash, hence identical digests), it lists the programs in sorted name
order each followed by the dot-joined string of its resolved version, and
a program that no longer resolves contributes the empty string instead of
an error. -/
theorem claim_C9 :
    (∀ (cfg : Cfg) (ps qs : List String), List.Perm ps qs →
      sig_vars_data cfg ps = sig_vars_data cfg qs) ∧
    (∀ (cfg : Cfg) (ps rs : List String), List.Perm rs ps → List.Sorted strLe rs →
      sig_vars_data cfg ps = sigFeed cfg rs) ∧
    (∀ (cfg : Cfg) (p : String), get_version cfg p = .emptyList →
      versionString cfg p = "") := by
  refine ⟨fun cfg ps qs hpq => ?_, fun cfg ps rs hperm hsorted => ?_, fun cfg p h => ?_⟩
  · unfold sig_vars_data
    congr 1
    exact List.eq_of_perm_of_sorted
      ((List.perm_insertionSort strLe ps).trans
        (hpq.trans (List.perm_insertionSort strLe qs).symm))
      (List.sorted_insertionSort strLe ps) (List.sorted_insertionSort strLe qs)
  · unfold sig_vars_data
    rw [List.eq_of_perm_of_sorted
      ((List.perm_insertionSort strLe ps).trans hperm.symm)
      (List.sorted_insertionSort strLe ps) hsorted]
  · simp [versionString, h]

/-- C9 witness: the three clauses at a concrete configuration and
program set. -/
theorem claim_C9_witness :
    sig_vars_data ⟨some [("a", [1, 2]), ("b", [3])], []⟩ ["b", "a"] =
      sig_vars_data ⟨some [("a", [1, 2]), ("b", [3])], []⟩ ["a", "b"] ∧
    sig_vars_data ⟨some [("a", [1, 2]), ("b", [3])], []⟩ ["b", "a"] =
      sigFeed ⟨some [("a", [1, 2]), ("b", [3])], []⟩ ["a", "b"] ∧
    versionString ⟨some [], []⟩ "q" = "" :=
  ⟨claim_C9.1 ⟨some [("a", [1, 2]), ("b", [3])], []⟩ ["b", "a"] ["a", "b"] (by decide),
   claim_C9.2.1 ⟨some [("a", [1, 2]), ("b", [3])], []⟩ ["b", "a"] ["a", "b"]
     (by decide) (by decide),
   claim_C9.2.2 ⟨some [], []⟩ "q" (by decide)⟩

/-- C10: the `subver` marker pattern is built only from the six
unsuffixed operator symbols, so `@p==?5@` matches no marker in that mode:
the line passes through unchanged with the marker text in place and no
program is added to the referenced set, whatever the configuration. -/
theorem claim_C10 :
    markerOps subver.operators = ["<", "<=", ">", ">=", "==", "!="] ∧
    searchMarker (markerOps subver.operators) "@p==?5@".data = none ∧
    (∀ cfg : Cfg, compatibleRun subver.operators cfg ["@p==?5@"] = .ok (["@p==?5@"], [])) :=
  ⟨rfl, by decide, fun cfg => rfl⟩
